import Mathlib

/-!
Verification of the machine-id resolution library (yamid).

The development shallowly embeds the library's Rust source:

* `src/error.rs` — the `Error` enum (`InvalidUuid`, `IoError`);
* `src/lib.rs` — the `MachineId` value type, its `Display` impl, the Linux
  resolution chain `MachineId::new` (primary file `/etc/machine-id`, rejected
  when empty, falling back to `/var/lib/dbus/machine-id`), and the
  non-Linux-Unix `sysctl`/`host_uuid` adapter.

File reads and the `sysctl` OS call are modelled as explicit oracles
(`LinuxFs`, `SysctlOs`): a resolution run is a pure function of the oracle.
Strings are lists of characters; Rust's `str::trim_end` (which removes every
trailing character satisfying `char::is_whitespace`) is embedded over the
Unicode White_Space code-point list.

The UUID parser and the serde encoding come from the external `uuid` crate,
whose source is not part of this repository; they are modelled from the
specification (§4.3 textual grammar, §4.4 structured encode/decode) and
marked as such in their doc comments.
-/

/-- The kinds of `std::io::Error` this development distinguishes.
`invalidData` is the kind the Linux chain constructs for an empty primary
file; the rest stand for arbitrary OS failures an oracle may report. -/
inductive IoErrorKind
  | notFound
  | permissionDenied
  | invalidData
  | other
  deriving DecidableEq, Repr

/-- A `std::io::Error` value, as the library observes it: either one built
with `io::Error::new(kind, "")`, one built with
`io::Error::from_raw_os_error(code)`, or a generic OS-reported error. -/
inductive IoError
  | newError (kind : IoErrorKind)
  | fromRawOsError (code : Int)
  | osError (kind : IoErrorKind) (code : Int)
  deriving DecidableEq, Repr

/-- `uuid::Error`: the parse failure reported by the UUID parser. The
library never inspects its contents, only propagates it. -/
inductive UuidError
  | invalidFormat
  deriving DecidableEq, Repr

/-- `src/error.rs`: the library's error enum.

```rust
pub enum Error {
    InvalidUuid(#[from] uuid::Error),
    IoError(#[from] std::io::Error),
}
``` -/
inductive Error
  | InvalidUuid (e : UuidError)
  | IoError (e : IoError)
  deriving DecidableEq, Repr

/-! ## The UUID parser (modelled from the spec)

`Uuid::parse_str` lives in the external `uuid` crate. Modelled from the
spec (§4.3): parse using the standard UUID textual grammar, accepting both
hyphenated (`8-4-4-4-12` hex groups) and unhyphenated 32-hex-digit forms;
fail with an invalid-identifier error on wrong length, non-hex characters
or malformed grouping. A UUID value is its 32 hexadecimal digits (nibbles),
most significant first. -/

/-- A 128-bit UUID value: its 32 nibbles, most significant first. -/
abbrev Uuid := List Nat

/-- The numeric value of one hexadecimal digit character, accepting both
lowercase and uppercase letters; `none` on a non-hex character. -/
def hexVal? (c : Char) : Option Nat :=
  let n := c.toNat
  if 48 ≤ n ∧ n ≤ 57 then some (n - 48)
  else if 97 ≤ n ∧ n ≤ 102 then some (n - 87)
  else if 65 ≤ n ∧ n ≤ 70 then some (n - 55)
  else none

/-- Parse every character of a string as a hex digit, all-or-nothing. -/
def hexList? : List Char → Option (List Nat)
  | [] => some []
  | c :: cs => do
    let v ← hexVal? c
    let vs ← hexList? cs
    pure (v :: vs)

/-- Consume exactly `n` hex digits from the front of a string, returning
their values and the rest of the string. -/
def takeHex : Nat → List Char → Option (List Nat × List Char)
  | 0, cs => some ([], cs)
  | _ + 1, [] => none
  | n + 1, c :: cs => do
    let v ← hexVal? c
    let (vs, rest) ← takeHex n cs
    pure (v :: vs, rest)

/-- Consume a literal hyphen from the front of a string. -/
def expectDash : List Char → Option (List Char)
  | c :: cs => if c = '-' then some cs else none
  | [] => none

/-- Modelled from the spec: the unhyphenated form of the UUID textual
grammar — exactly 32 hexadecimal digits. -/
def parse_simple (cs : List Char) : Option Uuid :=
  if cs.length = 32 then hexList? cs else none

/-- Modelled from the spec: the hyphenated form of the UUID textual
grammar — hex groups of sizes 8-4-4-4-12 separated by single hyphens. -/
def parse_hyphenated (cs : List Char) : Option Uuid := do
  let (a, r) ← takeHex 8 cs
  let r ← expectDash r
  let (b, r) ← takeHex 4 r
  let r ← expectDash r
  let (c, r) ← takeHex 4 r
  let r ← expectDash r
  let (d, r) ← takeHex 4 r
  let r ← expectDash r
  let (e, r) ← takeHex 12 r
  if r = [] then pure (a ++ b ++ c ++ d ++ e) else none

/-- Modelled from the spec: `uuid::Uuid::parse_str` (the crate's source is
not part of this repository). Accepts the unhyphenated 32-hex-digit form
and the hyphenated 8-4-4-4-12 form; fails with an invalid-identifier error
otherwise (wrong length, non-hex characters, malformed grouping, §4.3). -/
def Uuid.parse_str (cs : List Char) : Except UuidError Uuid :=
  match parse_simple cs with
  | some u => .ok u
  | none =>
    match parse_hyphenated cs with
    | some u => .ok u
    | none => .error .invalidFormat

/-! ## Rust string trimming -/

/-- Rust's `char::is_whitespace`: membership in the Unicode `White_Space`
property (code points 9–13, 32, 133, 160, 5760, 8192–8202, 8232, 8233,
8239, 8287, 12288). -/
def isRustWhitespace (c : Char) : Bool :=
  let n := c.toNat
  (9 ≤ n && n ≤ 13) || n == 32 || n == 133 || n == 160 || n == 5760 ||
    (8192 ≤ n && n ≤ 8202) || n == 8232 || n == 8233 || n == 8239 ||
    n == 8287 || n == 12288

/-- Rust's `str::trim_end`: remove every trailing whitespace character. -/
def trim_end (cs : List Char) : List Char :=
  ((cs.reverse.dropWhile isRustWhitespace)).reverse

/-- Follows the spec's words, for comparison with the source's `trim_end`:
"Trim a single trailing line terminator (and only a trailing one — no
trimming of internal whitespace)". Removes one trailing newline if present
and nothing else. -/
def trimSingleTrailingNewline (cs : List Char) : List Char :=
  match cs.reverse with
  | '\n' :: rest => rest.reverse
  | _ => cs

/-! ## The MachineId value type -/

/-- `src/lib.rs`: `pub struct MachineId(Uuid);` — the immutable wrapper
around the resolved 128-bit UUID. Equality is (derived) value equality. -/
structure MachineId where
  uuid : Uuid
  deriving DecidableEq, Repr

/-- The uppercase hexadecimal character of one nibble. -/
def nibbleToUpperHexChar (n : Nat) : Char :=
  if n < 10 then Char.ofNat (48 + n) else Char.ofNat (55 + n)

/-- Modelled from the spec: the `uuid` crate's `UpperHex` formatting of a
UUID — the 32 digits in uppercase, grouped 8-4-4-4-12 with hyphens, no
surrounding braces (§4.4 canonical text form). -/
def Uuid.upperHex (u : Uuid) : List Char :=
  let d := u.map nibbleToUpperHexChar
  d.take 8 ++ '-' :: (d.drop 8).take 4 ++ '-' :: (d.drop 12).take 4 ++
    '-' :: (d.drop 16).take 4 ++ '-' :: d.drop 20

/-- `src/lib.rs`: `impl Display for MachineId` delegates to
`std::fmt::UpperHex::fmt(&self.0, f)` — the canonical uppercase form. -/
def MachineId.display (m : MachineId) : List Char :=
  Uuid.upperHex m.uuid

/-- Modelled from the spec: the structured (serde) encoding of a
`MachineId` "serializes to … the same canonical textual form" (§4.4); the
serialize half of the derive delegates to the external `uuid` crate. -/
def MachineId.serde_serialize (m : MachineId) : List Char :=
  m.display

/-- Modelled from the spec: the structured (serde) decoding of a
`MachineId` "deserializes from the same canonical textual form; decoding
performs the identical validation as 4.3 and fails identically on
malformed input" (§4.4). -/
def MachineId.serde_deserialize (cs : List Char) : Except Error MachineId :=
  match Uuid.parse_str cs with
  | .ok u => .ok ⟨u⟩
  | .error e => .error (.InvalidUuid e)

/-! ## The Linux resolution chain -/

/-- The path of the primary Linux machine-id file. -/
def etcMachineId : String := "/etc/machine-id"

/-- The path of the fallback dbus machine-id file. -/
def dbusMachineId : String := "/var/lib/dbus/machine-id"

/-- The state of the file system as the Linux chain observes it:
`std::fs::read_to_string` per path either yields the file's contents or
reports an `io::Error`. -/
structure LinuxFs where
  read_to_string : String → Except IoError (List Char)

/-- `src/lib.rs` lines 49–56: read the primary file and reject empty
contents.

```rust
read_to_string("/etc/machine-id").and_then(|data| {
    if data.is_empty() {
        Err(std::io::Error::new(std::io::ErrorKind::InvalidData, ""))
    } else {
        Ok(data)
    }
})
``` -/
def readPrimary (fs : LinuxFs) : Except IoError (List Char) :=
  match fs.read_to_string etcMachineId with
  | .ok data =>
    if data.isEmpty then .error (.newError .invalidData) else .ok data
  | .error e => .error e

/-- `src/lib.rs` line 57: `.or_else(|_| read_to_string("/var/lib/dbus/machine-id"))`.
The second component records, in order, the paths whose `read_to_string`
the run performed. -/
def readChainT (fs : LinuxFs) : Except IoError (List Char) × List String :=
  match readPrimary fs with
  | .ok data => (.ok data, [etcMachineId])
  | .error _ => (fs.read_to_string dbusMachineId, [etcMachineId, dbusMachineId])

/-- `src/lib.rs` lines 45–61: the Linux `MachineId::new`, instrumented with
the list of file paths read.

```rust
let guid_str = read_to_string("/etc/machine-id").and_then(…empty check…)
    .or_else(|_| read_to_string("/var/lib/dbus/machine-id"))?;
let machine_uuid = Uuid::parse_str(guid_str.trim_end())?;
Ok(Self(machine_uuid))
``` -/
def MachineId.newT (fs : LinuxFs) : Except Error MachineId × List String :=
  match readChainT fs with
  | (.error e, reads) => (.error (.IoError e), reads)
  | (.ok guid_str, reads) =>
    match Uuid.parse_str (trim_end guid_str) with
    | .ok machine_uuid => (.ok ⟨machine_uuid⟩, reads)
    | .error e => (.error (.InvalidUuid e), reads)

/-- The Linux `MachineId::new`: the result of the instrumented run. -/
def MachineId.new (fs : LinuxFs) : Except Error MachineId :=
  (MachineId.newT fs).1

/-- "Every source in the Linux chain failed to produce a raw string": the
primary read failed or yielded empty contents, and the fallback read
failed. -/
def chainFailed (fs : LinuxFs) : Prop :=
  ((∃ e, fs.read_to_string etcMachineId = .error e) ∨
    fs.read_to_string etcMachineId = .ok []) ∧
  (∃ e, fs.read_to_string dbusMachineId = .error e)

/-! ## The non-Linux Unix sysctl adapter -/

/-- The OS as the `unix::sysctl` wrapper observes it. `call1` is the
size-query `libc::sysctl` call with a null output buffer: `.error r` means
the call returned the non-zero value `r`, `.ok n` that it returned 0 and
wrote the required size `n`. `call2 n` is the second call with a buffer of
capacity `n`: `.error s` means it returned the non-zero value `s`, `.ok b`
that it returned 0 having written the bytes `b` (the first `n'` entries of
the buffer, `set_len(n')`). -/
structure SysctlOs where
  call1 : Except Int Nat
  call2 : Nat → Except Int (List Nat)

namespace unix

/-- `src/lib.rs` lines 127–162: the two-step `sysctl` wrapper — query the
required size with a null buffer, then re-query into an allocated buffer;
on a non-zero return `r` of either call, fail with
`std::io::Error::from_raw_os_error(r)`. -/
def sysctl (os : SysctlOs) : Except IoError (List Nat) :=
  match os.call1 with
  | .error r => .error (.fromRawOsError r)
  | .ok n =>
    match os.call2 n with
    | .error s => .error (.fromRawOsError s)
    | .ok b => .ok b

/-- `src/lib.rs` lines 116–125: `host_uuid` — run `sysctl` for
`[CTL_KERN, KERN_HOSTUUID]` and keep the buffer's bytes up to the first
NUL, each converted to a character.

```rust
Ok(vec.into_iter().take_while(|ch| *ch != 0).map(|ch| ch as char).collect())
``` -/
def host_uuid (os : SysctlOs) : Except IoError (List Char) :=
  match sysctl os with
  | .error e => .error e
  | .ok vec => .ok ((vec.takeWhile (fun ch => ch ≠ 0)).map (fun ch => Char.ofNat ch))

end unix

/-- The raw-string stage of the Linux chain, before parsing: the value the
`or_else` expression binds to `guid_str` (or the propagated `io::Error`). -/
def readChain (fs : LinuxFs) : Except IoError (List Char) :=
  (readChainT fs).1

/-- An uppercase hexadecimal digit: `0`–`9` or `A`–`F`. -/
def isUpperHexDigit (c : Char) : Bool :=
  (48 ≤ c.toNat && c.toNat ≤ 57) || (65 ≤ c.toNat && c.toNat ≤ 70)

/-! ## Concrete fixtures used by the witness theorems -/

/-- The nibbles of `ABCDEF12-3456-7890-1234-567890123456`. -/
def exU : Uuid :=
  [10, 11, 12, 13, 14, 15, 1, 2, 3, 4, 5, 6, 7, 8, 9, 0,
   1, 2, 3, 4, 5, 6, 7, 8, 9, 0, 1, 2, 3, 4, 5, 6]

/-- The nibbles of `4C4C4544-0046-3410-8051-B3C04F325233`. -/
def exU2 : Uuid :=
  [4, 12, 4, 12, 4, 5, 4, 4, 0, 0, 4, 6, 3, 4, 1, 0,
   8, 0, 5, 1, 11, 3, 12, 0, 4, 15, 3, 2, 5, 2, 3, 3]

/-- A file system whose primary machine-id file holds non-empty content
that is not a UUID, while the fallback file holds a valid one. -/
def exFsBadPrimary : LinuxFs :=
  ⟨fun p =>
    if p = etcMachineId then .ok ("not-a-uuid\n".toList)
    else if p = dbusMachineId then .ok ("abcdef12345678901234567890123456".toList)
    else .error (.newError .notFound)⟩

/-- A file system whose primary machine-id file is empty and whose
fallback file holds a bare-hex machine id. -/
def exFsEmptyPrimary : LinuxFs :=
  ⟨fun p =>
    if p = etcMachineId then .ok []
    else if p = dbusMachineId then .ok ("abcdef12345678901234567890123456".toList)
    else .error (.newError .notFound)⟩

/-- A file system whose primary machine-id file holds a lowercase
hyphenated UUID followed by a newline. -/
def exFsHyphenated : LinuxFs :=
  ⟨fun p =>
    if p = etcMachineId then .ok ("4c4c4544-0046-3410-8051-b3c04f325233\n".toList)
    else .error (.newError .notFound)⟩

/-- A file system on which both machine-id files are absent. -/
def exFsAbsent : LinuxFs :=
  ⟨fun _ => .error (.newError .notFound)⟩

/-- A file system whose primary machine-id file holds a single newline,
while the fallback file holds a valid machine id. -/
def exFsNewlinePrimary : LinuxFs :=
  ⟨fun p =>
    if p = etcMachineId then .ok ['\n']
    else if p = dbusMachineId then .ok ("abcdef12345678901234567890123456".toList)
    else .error (.newError .notFound)⟩

/-- A sysctl oracle whose size query returns the non-zero value `-1`. -/
def exOsCall1Fails : SysctlOs :=
  ⟨.error (-1), fun _ => .error (-1)⟩

/-- A sysctl oracle whose size query succeeds and whose data query returns
the non-zero value `5`. -/
def exOsCall2Fails : SysctlOs :=
  ⟨.ok 37, fun _ => .error 5⟩

/-- A sysctl oracle that succeeds, returning a NUL-terminated buffer. -/
def exOsOk : SysctlOs :=
  ⟨.ok 4, fun _ => .ok [65, 66, 0, 67]⟩

deriving instance DecidableEq for Except

/-! ## Helper lemmas: hex digits and whitespace -/

theorem isRustWhitespace_iff (c : Char) :
    isRustWhitespace c = true ↔
      ((9 ≤ c.toNat ∧ c.toNat ≤ 13) ∨ c.toNat = 32 ∨ c.toNat = 133 ∨
        c.toNat = 160 ∨ c.toNat = 5760 ∨ (8192 ≤ c.toNat ∧ c.toNat ≤ 8202) ∨
        c.toNat = 8232 ∨ c.toNat = 8233 ∨ c.toNat = 8239 ∨ c.toNat = 8287 ∨
        c.toNat = 12288) := by
  simp only [isRustWhitespace, Bool.or_eq_true, Bool.and_eq_true,
    decide_eq_true_eq, beq_iff_eq]
  tauto

theorem hexVal?_lt {c : Char} {v : Nat} (h : hexVal? c = some v) : v < 16 := by
  simp only [hexVal?] at h
  split at h
  · injection h with h; omega
  · split at h
    · injection h with h; omega
    · split at h
      · injection h with h; omega
      · exact absurd h (by simp)

theorem hexVal?_isSome_range {c : Char} (h : (hexVal? c).isSome = true) :
    (48 ≤ c.toNat ∧ c.toNat ≤ 57) ∨ (97 ≤ c.toNat ∧ c.toNat ≤ 102) ∨
      (65 ≤ c.toNat ∧ c.toNat ≤ 70) := by
  simp only [hexVal?] at h
  split at h
  · omega
  · split at h
    · omega
    · split at h
      · omega
      · simp at h

theorem hexVal?_not_ws {c : Char} (h : (hexVal? c).isSome = true) :
    isRustWhitespace c = false := by
  rcases hexVal?_isSome_range h with h1 | h1 | h1 <;>
    (rw [← Bool.not_eq_true, isRustWhitespace_iff]; omega)

theorem dash_not_ws : isRustWhitespace '-' = false := by decide

theorem hexVal?_nibble : ∀ v, v < 16 → hexVal? (nibbleToUpperHexChar v) = some v := by
  decide

theorem nibble_upper_hex : ∀ v, v < 16 →
    (48 ≤ (nibbleToUpperHexChar v).toNat ∧ (nibbleToUpperHexChar v).toNat ≤ 57) ∨
      (65 ≤ (nibbleToUpperHexChar v).toNat ∧ (nibbleToUpperHexChar v).toNat ≤ 70) := by
  decide

/-! ## Helper lemmas: hexList? and takeHex -/

theorem hexList?_ok : ∀ {cs : List Char} {u : List Nat}, hexList? cs = some u →
    u.length = cs.length ∧ (∀ v ∈ u, v < 16) ∧ (∀ c ∈ cs, (hexVal? c).isSome = true)
  | [], u, h => by
    simp only [hexList?] at h
    cases h
    simp
  | c :: cs, u, h => by
    simp only [hexList?, Option.bind_eq_bind, Option.bind_eq_some] at h
    obtain ⟨v, hv, vs, hvs, hu⟩ := h
    obtain ⟨h1, h2, h3⟩ := hexList?_ok hvs
    cases hu
    refine ⟨by simp [h1], ?_, ?_⟩
    · intro x hx
      rcases List.mem_cons.mp hx with rfl | hx
      · exact hexVal?_lt hv
      · exact h2 x hx
    · intro x hx
      rcases List.mem_cons.mp hx with rfl | hx
      · simp [hv]
      · exact h3 x hx

theorem hexList?_map_nibble : ∀ {u : List Nat}, (∀ v ∈ u, v < 16) →
    hexList? (u.map nibbleToUpperHexChar) = some u
  | [], _ => rfl
  | v :: u, h => by
    have hv : v < 16 := h v (List.mem_cons_self v u)
    have hu : ∀ x ∈ u, x < 16 := fun x hx => h x (List.mem_cons_of_mem v hx)
    simp only [List.map_cons, hexList?, hexVal?_nibble v hv,
      hexList?_map_nibble hu, Option.bind_eq_bind, Option.some_bind]
    rfl

theorem takeHex_ok : ∀ {n : Nat} {cs : List Char} {vs : List Nat} {r : List Char},
    takeHex n cs = some (vs, r) →
    vs.length = n ∧ (∀ v ∈ vs, v < 16) ∧
      ∃ pre, cs = pre ++ r ∧ pre.length = n ∧ ∀ c ∈ pre, (hexVal? c).isSome = true
  | 0, cs, vs, r, h => by
    simp only [takeHex] at h
    cases h
    exact ⟨rfl, by simp, [], by simp⟩
  | n + 1, [], vs, r, h => by simp [takeHex] at h
  | n + 1, c :: cs, vs, r, h => by
    simp only [takeHex, Option.bind_eq_bind, Option.bind_eq_some] at h
    obtain ⟨v, hv, ⟨vs', r'⟩, hrec, heq⟩ := h
    simp only [Option.some_bind] at heq
    cases heq
    obtain ⟨h1, h2, pre, hpre, hlen, hhex⟩ := takeHex_ok hrec
    refine ⟨by simp [h1], ?_, c :: pre, by simp [hpre], by simp [hlen], ?_⟩
    · intro x hx
      rcases List.mem_cons.mp hx with rfl | hx
      · exact hexVal?_lt hv
      · exact h2 x hx
    · intro x hx
      rcases List.mem_cons.mp hx with rfl | hx
      · simp [hv]
      · exact hhex x hx

theorem takeHex_map_nibble : ∀ {vs : List Nat} {rest : List Char},
    (∀ v ∈ vs, v < 16) →
    takeHex vs.length (vs.map nibbleToUpperHexChar ++ rest) = some (vs, rest)
  | [], rest, _ => rfl
  | v :: vs, rest, h => by
    have hv : v < 16 := h v (List.mem_cons_self v vs)
    have hvs : ∀ x ∈ vs, x < 16 := fun x hx => h x (List.mem_cons_of_mem v hx)
    simp only [List.length_cons, List.map_cons, List.cons_append, takeHex,
      List.append_eq, hexVal?_nibble v hv, takeHex_map_nibble hvs,
      Option.bind_eq_bind, Option.some_bind]
    rfl

theorem takeHex_map_nibble_of_length {n : Nat} {vs : List Nat} {rest : List Char}
    (hn : vs.length = n) (h : ∀ v ∈ vs, v < 16) :
    takeHex n (vs.map nibbleToUpperHexChar ++ rest) = some (vs, rest) := by
  subst hn
  exact takeHex_map_nibble h

theorem expectDash_some : ∀ {r r' : List Char}, expectDash r = some r' → r = '-' :: r'
  | [], _, h => by simp [expectDash] at h
  | c :: cs, r', h => by
    simp only [expectDash] at h
    split at h
    · rename_i hc
      cases h
      rw [hc]
    · exact absurd h (by simp)

/-! ## Helper lemmas: the parser -/

theorem parse_simple_ok {cs : List Char} {u : Uuid}
    (h : parse_simple cs = some u) :
    u.length = 32 ∧ (∀ v ∈ u, v < 16) ∧ (∀ c ∈ cs, (hexVal? c).isSome = true) := by
  simp only [parse_simple] at h
  split at h
  · rename_i hlen
    obtain ⟨h1, h2, h3⟩ := hexList?_ok h
    exact ⟨h1.trans hlen, h2, h3⟩
  · exact absurd h (by simp)

theorem parse_hyphenated_ok {cs : List Char} {u : Uuid}
    (h : parse_hyphenated cs = some u) :
    u.length = 32 ∧ (∀ v ∈ u, v < 16) ∧
      (∀ c ∈ cs, (hexVal? c).isSome = true ∨ c = '-') := by
  simp only [parse_hyphenated, Option.bind_eq_bind, Option.bind_eq_some] at h
  obtain ⟨⟨a, r1⟩, h1, h⟩ := h
  obtain ⟨r1', hd1, h⟩ := h
  obtain ⟨⟨b, r2⟩, h2, h⟩ := h
  obtain ⟨r2', hd2, h⟩ := h
  obtain ⟨⟨c, r3⟩, h3, h⟩ := h
  obtain ⟨r3', hd3, h⟩ := h
  obtain ⟨⟨d, r4⟩, h4, h⟩ := h
  obtain ⟨r4', hd4, h⟩ := h
  obtain ⟨⟨e, r5⟩, h5, h⟩ := h
  split at h
  · rename_i hr5
    subst hr5
    cases h
    obtain ⟨ha1, ha2, pa, hpa, _, ha3⟩ := takeHex_ok h1
    obtain ⟨hb1, hb2, pb, hpb, _, hb3⟩ := takeHex_ok h2
    obtain ⟨hc1, hc2, pc, hpc, _, hc3⟩ := takeHex_ok h3
    obtain ⟨hd1', hd2', pd, hpd, _, hd3'⟩ := takeHex_ok h4
    obtain ⟨he1, he2, pe, hpe, _, he3⟩ := takeHex_ok h5
    refine ⟨by simp [ha1, hb1, hc1, hd1', he1], ?_, ?_⟩
    · intro v hv
      simp only [List.append_assoc, List.mem_append] at hv
      rcases hv with hv | hv | hv | hv | hv
      · exact ha2 v hv
      · exact hb2 v hv
      · exact hc2 v hv
      · exact hd2' v hv
      · exact he2 v hv
    · intro x hx
      have e1 : r1 = '-' :: r1' := expectDash_some hd1
      have e2 : r2 = '-' :: r2' := expectDash_some hd2
      have e3 : r3 = '-' :: r3' := expectDash_some hd3
      have e4 : r4 = '-' :: r4' := expectDash_some hd4
      rw [hpa, e1, hpb, e2, hpc, e3, hpd, e4, hpe] at hx
      simp only [List.append_nil, List.mem_append, List.mem_cons] at hx
      rcases hx with hx | hx | hx | hx | hx | hx | hx | hx | hx
      · exact Or.inl (ha3 x hx)
      · exact Or.inr hx
      · exact Or.inl (hb3 x hx)
      · exact Or.inr hx
      · exact Or.inl (hc3 x hx)
      · exact Or.inr hx
      · exact Or.inl (hd3' x hx)
      · exact Or.inr hx
      · exact Or.inl (he3 x hx)
  · exact absurd h (by simp)

theorem parse_str_ok_shape {cs : List Char} {u : Uuid}
    (h : Uuid.parse_str cs = .ok u) :
    u.length = 32 ∧ ∀ v ∈ u, v < 16 := by
  simp only [Uuid.parse_str] at h
  split at h
  · rename_i hs
    cases h
    obtain ⟨h1, h2, _⟩ := parse_simple_ok hs
    exact ⟨h1, h2⟩
  · split at h
    · rename_i hh
      cases h
      obtain ⟨h1, h2, _⟩ := parse_hyphenated_ok hh
      exact ⟨h1, h2⟩
    · exact absurd h (by simp)

theorem parse_str_ok_chars {cs : List Char} {u : Uuid}
    (h : Uuid.parse_str cs = .ok u) :
    ∀ c ∈ cs, (hexVal? c).isSome = true ∨ c = '-' := by
  simp only [Uuid.parse_str] at h
  split at h
  · rename_i hs
    intro c hc
    exact Or.inl ((parse_simple_ok hs).2.2 c hc)
  · split at h
    · rename_i hh
      exact (parse_hyphenated_ok hh).2.2
    · exact absurd h (by simp)

theorem parse_str_ok_no_ws {cs : List Char} {u : Uuid}
    (h : Uuid.parse_str cs = .ok u) :
    ∀ c ∈ cs, isRustWhitespace c = false := by
  intro c hc
  rcases parse_str_ok_chars h c hc with hx | rfl
  · exact hexVal?_not_ws hx
  · exact dash_not_ws

theorem expectDash_cons_dash (cs : List Char) : expectDash ('-' :: cs) = some cs := by
  simp [expectDash]

theorem uuid_regroup (u : Uuid) :
    u.take 8 ++ ((u.drop 8).take 4 ++ ((u.drop 12).take 4 ++
      ((u.drop 16).take 4 ++ u.drop 20))) = u := by
  have e12 : (u.drop 8).drop 4 = u.drop 12 := by
    rw [List.drop_drop]
  have e16 : (u.drop 12).drop 4 = u.drop 16 := by
    rw [List.drop_drop]
  have e20 : (u.drop 16).drop 4 = u.drop 20 := by
    rw [List.drop_drop]
  calc u.take 8 ++ ((u.drop 8).take 4 ++ ((u.drop 12).take 4 ++
          ((u.drop 16).take 4 ++ u.drop 20)))
      = u.take 8 ++ ((u.drop 8).take 4 ++ ((u.drop 12).take 4 ++
          ((u.drop 16).take 4 ++ (u.drop 16).drop 4))) := by rw [e20]
    _ = u.take 8 ++ ((u.drop 8).take 4 ++ ((u.drop 12).take 4 ++
          (u.drop 12).drop 4)) := by rw [List.take_append_drop, e16]
    _ = u.take 8 ++ ((u.drop 8).take 4 ++ (u.drop 8).drop 4) := by
          rw [List.take_append_drop, e12]
    _ = u.take 8 ++ u.drop 8 := by rw [List.take_append_drop]
    _ = u := List.take_append_drop 8 u

theorem upperHex_length {u : Uuid} (hlen : u.length = 32) :
    (Uuid.upperHex u).length = 36 := by
  simp only [Uuid.upperHex, List.length_append, List.length_cons,
    List.length_take, List.length_drop, List.length_map, hlen]
  omega

theorem parse_hyphenated_upperHex {u : Uuid} (hlen : u.length = 32)
    (hlt : ∀ v ∈ u, v < 16) : parse_hyphenated (Uuid.upperHex u) = some u := by
  have m1 : ∀ v ∈ u.take 8, v < 16 := fun v hv => hlt v (List.mem_of_mem_take hv)
  have m2 : ∀ v ∈ (u.drop 8).take 4, v < 16 :=
    fun v hv => hlt v (List.mem_of_mem_drop (List.mem_of_mem_take hv))
  have m3 : ∀ v ∈ (u.drop 12).take 4, v < 16 :=
    fun v hv => hlt v (List.mem_of_mem_drop (List.mem_of_mem_take hv))
  have m4 : ∀ v ∈ (u.drop 16).take 4, v < 16 :=
    fun v hv => hlt v (List.mem_of_mem_drop (List.mem_of_mem_take hv))
  have m5 : ∀ v ∈ u.drop 20, v < 16 := fun v hv => hlt v (List.mem_of_mem_drop hv)
  have l1 : (u.take 8).length = 8 := List.length_take_of_le (by omega)
  have l2 : ((u.drop 8).take 4).length = 4 :=
    List.length_take_of_le (by simp [hlen])
  have l3 : ((u.drop 12).take 4).length = 4 :=
    List.length_take_of_le (by simp [hlen])
  have l4 : ((u.drop 16).take 4).length = 4 :=
    List.length_take_of_le (by simp [hlen])
  have l5 : (u.drop 20).length = 12 := by simp [hlen]
  have last : takeHex 12 ((u.drop 20).map nibbleToUpperHexChar) =
      some (u.drop 20, []) := by
    have h := @takeHex_map_nibble_of_length 12 (u.drop 20) [] l5 m5
    simpa using h
  have hup : Uuid.upperHex u =
      (u.take 8).map nibbleToUpperHexChar ++
        ('-' :: (((u.drop 8).take 4).map nibbleToUpperHexChar ++
          ('-' :: (((u.drop 12).take 4).map nibbleToUpperHexChar ++
            ('-' :: (((u.drop 16).take 4).map nibbleToUpperHexChar ++
              ('-' :: (u.drop 20).map nibbleToUpperHexChar))))))) := by
    simp only [Uuid.upperHex, ← List.map_take, ← List.map_drop,
      List.cons_append, List.append_assoc]
  rw [hup]
  simp only [parse_hyphenated, Option.bind_eq_bind,
    takeHex_map_nibble_of_length l1 m1, takeHex_map_nibble_of_length l2 m2,
    takeHex_map_nibble_of_length l3 m3, takeHex_map_nibble_of_length l4 m4,
    last, expectDash_cons_dash, Option.some_bind]
  simp [pure, List.append_assoc, uuid_regroup]

theorem parse_str_upperHex {u : Uuid} (hlen : u.length = 32)
    (hlt : ∀ v ∈ u, v < 16) : Uuid.parse_str (Uuid.upperHex u) = .ok u := by
  have hs : parse_simple (Uuid.upperHex u) = none := by
    simp [parse_simple, upperHex_length hlen]
  simp only [Uuid.parse_str, hs, parse_hyphenated_upperHex hlen hlt]

/-! ## Helper lemmas: trimming -/

theorem trim_end_append_ws (cs : List Char) :
    trim_end cs ++ (cs.reverse.takeWhile isRustWhitespace).reverse = cs := by
  rw [trim_end, ← List.reverse_append, List.takeWhile_append_dropWhile,
    List.reverse_reverse]

theorem trim_end_dropped_ws (cs : List Char) :
    ∀ c ∈ (cs.reverse.takeWhile isRustWhitespace).reverse,
      isRustWhitespace c = true :=
  fun _ hc => List.mem_takeWhile_imp (List.mem_reverse.mp hc)

theorem head?_dropWhile_false {p : Char → Bool} :
    ∀ (l : List Char) {c : Char}, (l.dropWhile p).head? = some c → p c = false
  | [], c, h => by simp [List.dropWhile] at h
  | a :: l, c, h => by
    rw [List.dropWhile_cons] at h
    split at h
    · exact head?_dropWhile_false l h
    · rename_i ha
      simp only [List.head?_cons, Option.some.injEq] at h
      subst h
      simpa using ha

theorem trim_end_getLast_not_ws {cs : List Char} {c : Char}
    (h : (trim_end cs).getLast? = some c) : isRustWhitespace c = false := by
  rw [trim_end, List.getLast?_reverse] at h
  exact head?_dropWhile_false cs.reverse h

theorem trim_end_all_ws {cs : List Char}
    (h : ∀ c ∈ cs, isRustWhitespace c = true) : trim_end cs = [] := by
  rw [trim_end, List.dropWhile_eq_nil_iff.mpr
    (fun x hx => h x (List.mem_reverse.mp hx)), List.reverse_nil]

theorem parse_str_nil : Uuid.parse_str [] = .error .invalidFormat := by decide

/-! ## Helper lemmas: the Linux chain -/

theorem readChainT_primary_ok {fs : LinuxFs} {d : List Char}
    (h : fs.read_to_string etcMachineId = .ok d) (hne : d ≠ []) :
    readChainT fs = (.ok d, [etcMachineId]) := by
  have hp : readPrimary fs = .ok d := by
    rw [readPrimary, h]
    simp [List.isEmpty_iff, hne]
  rw [readChainT, hp]

theorem readChainT_primary_failed {fs : LinuxFs}
    (h : (∃ e, fs.read_to_string etcMachineId = .error e) ∨
      fs.read_to_string etcMachineId = .ok []) :
    readChainT fs =
      (fs.read_to_string dbusMachineId, [etcMachineId, dbusMachineId]) := by
  have hp : ∃ e, readPrimary fs = .error e := by
    rcases h with ⟨e, he⟩ | he
    · exact ⟨e, by rw [readPrimary, he]⟩
    · exact ⟨.newError .invalidData, by rw [readPrimary, he]; simp⟩
  obtain ⟨e, he⟩ := hp
  rw [readChainT, he]

theorem newT_of_chain_ok {fs : LinuxFs} {d : List Char} {reads : List String}
    (h : readChainT fs = (.ok d, reads)) :
    MachineId.newT fs =
      (match Uuid.parse_str (trim_end d) with
        | .ok u => .ok ⟨u⟩
        | .error e => .error (.InvalidUuid e), reads) := by
  rw [MachineId.newT, h]
  dsimp only
  cases Uuid.parse_str (trim_end d) <;> rfl

theorem newT_of_chain_error {fs : LinuxFs} {e : IoError} {reads : List String}
    (h : readChainT fs = (.error e, reads)) :
    MachineId.newT fs = (.error (.IoError e), reads) := by
  rw [MachineId.newT, h]

theorem new_unparsable_primary {fs : LinuxFs} {d : List Char}
    (h1 : fs.read_to_string etcMachineId = .ok d) (h2 : d ≠ [])
    (h3 : Uuid.parse_str (trim_end d) = .error .invalidFormat) :
    MachineId.new fs = .error (.InvalidUuid .invalidFormat) ∧
      dbusMachineId ∉ (MachineId.newT fs).2 := by
  have hn := newT_of_chain_ok (readChainT_primary_ok h1 h2)
  rw [h3] at hn
  refine ⟨by rw [MachineId.new, hn], ?_⟩
  rw [hn]
  intro hm
  rw [List.mem_singleton] at hm
  exact absurd hm (by decide)

theorem new_ok_shape {fs : LinuxFs} {m : MachineId}
    (h : MachineId.new fs = .ok m) :
    m.uuid.length = 32 ∧ ∀ v ∈ m.uuid, v < 16 := by
  rcases hc : readChainT fs with ⟨res, reads⟩
  rcases res with e | d
  · rw [MachineId.new, newT_of_chain_error hc] at h
    cases h
  · rw [MachineId.new, newT_of_chain_ok hc] at h
    split at h
    · rename_i u hp
      injection h with h
      subst h
      exact parse_str_ok_shape hp
    · cases h

theorem upperHex_decomp (u : Uuid) :
    Uuid.upperHex u =
      (u.take 8).map nibbleToUpperHexChar ++
        ('-' :: (((u.drop 8).take 4).map nibbleToUpperHexChar ++
          ('-' :: (((u.drop 12).take 4).map nibbleToUpperHexChar ++
            ('-' :: (((u.drop 16).take 4).map nibbleToUpperHexChar ++
              ('-' :: (u.drop 20).map nibbleToUpperHexChar))))))) := by
  simp only [Uuid.upperHex, ← List.map_take, ← List.map_drop,
    List.cons_append, List.append_assoc]

theorem nibble_isUpperHexDigit : ∀ v, v < 16 →
    isUpperHexDigit (nibbleToUpperHexChar v) = true := by
  decide

theorem upperHex_chars {u : Uuid} (hlt : ∀ v ∈ u, v < 16) :
    ∀ c ∈ Uuid.upperHex u, isUpperHexDigit c = true ∨ c = '-' := by
  have hm : ∀ c, c ∈ u.map nibbleToUpperHexChar → isUpperHexDigit c = true := by
    intro c hc
    obtain ⟨v, hv, rfl⟩ := List.mem_map.mp hc
    exact nibble_isUpperHexDigit v (hlt v hv)
  intro c hc
  rw [upperHex_decomp] at hc
  simp only [List.mem_append, List.mem_cons] at hc
  rcases hc with hc | rfl | hc | rfl | hc | rfl | hc | rfl | hc
  · obtain ⟨v, hv, rfl⟩ := List.mem_map.mp hc
    exact Or.inl (nibble_isUpperHexDigit v (hlt v (List.mem_of_mem_take hv)))
  · exact Or.inr rfl
  · obtain ⟨v, hv, rfl⟩ := List.mem_map.mp hc
    exact Or.inl (nibble_isUpperHexDigit v
      (hlt v (List.mem_of_mem_drop (List.mem_of_mem_take hv))))
  · exact Or.inr rfl
  · obtain ⟨v, hv, rfl⟩ := List.mem_map.mp hc
    exact Or.inl (nibble_isUpperHexDigit v
      (hlt v (List.mem_of_mem_drop (List.mem_of_mem_take hv))))
  · exact Or.inr rfl
  · obtain ⟨v, hv, rfl⟩ := List.mem_map.mp hc
    exact Or.inl (nibble_isUpperHexDigit v
      (hlt v (List.mem_of_mem_drop (List.mem_of_mem_take hv))))
  · exact Or.inr rfl
  · obtain ⟨v, hv, rfl⟩ := List.mem_map.mp hc
    exact Or.inl (nibble_isUpperHexDigit v (hlt v (List.mem_of_mem_drop hv)))

theorem c4_chain_ok {fs : LinuxFs} {d : List Char} {reads : List String}
    (hc : readChainT fs = (.ok d, reads)) (hnf : ¬ chainFailed fs) :
    ((∃ e, MachineId.new fs = .error (.IoError e)) ↔ chainFailed fs) ∧
    ((∃ e, MachineId.new fs = .error (.InvalidUuid e)) ↔
      (∃ d', readChain fs = .ok d' ∧
        Uuid.parse_str (trim_end d') = .error .invalidFormat)) ∧
    (chainFailed fs → ∀ m, MachineId.new fs ≠ .ok m) := by
  have hrc : readChain fs = .ok d := by rw [readChain, hc]
  have hnew : MachineId.new fs =
      (match Uuid.parse_str (trim_end d) with
        | .ok u => .ok ⟨u⟩
        | .error e => .error (.InvalidUuid e)) := by
    rw [MachineId.new, newT_of_chain_ok hc]
  refine ⟨?_, ?_, fun hcf => absurd hcf hnf⟩
  · constructor
    · rintro ⟨e, he⟩
      rw [hnew] at he
      split at he
      · exact absurd he (by simp)
      · exact absurd he (by simp)
    · intro hcf
      exact absurd hcf hnf
  · constructor
    · rintro ⟨e, he⟩
      rw [hnew] at he
      split at he
      · exact absurd he (by simp)
      · rename_i e' hp
        cases e'
        exact ⟨d, hrc, hp⟩
    · rintro ⟨d', hd', hp'⟩
      rw [hrc] at hd'
      injection hd' with hd'
      subst hd'
      rw [hnew, hp']
      exact ⟨.invalidFormat, rfl⟩

theorem c4_chain_error {fs : LinuxFs} {e : IoError} {reads : List String}
    (hc : readChainT fs = (.error e, reads)) (hcf : chainFailed fs) :
    ((∃ e, MachineId.new fs = .error (.IoError e)) ↔ chainFailed fs) ∧
    ((∃ e, MachineId.new fs = .error (.InvalidUuid e)) ↔
      (∃ d', readChain fs = .ok d' ∧
        Uuid.parse_str (trim_end d') = .error .invalidFormat)) ∧
    (chainFailed fs → ∀ m, MachineId.new fs ≠ .ok m) := by
  have hrc : readChain fs = .error e := by rw [readChain, hc]
  have hnew : MachineId.new fs = .error (.IoError e) := by
    rw [MachineId.new, newT_of_chain_error hc]
  refine ⟨⟨fun _ => hcf, fun _ => ⟨e, hnew⟩⟩, ?_, ?_⟩
  · constructor
    · rintro ⟨e', he'⟩
      rw [hnew] at he'
      exact absurd he' (by simp)
    · rintro ⟨d', hd', _⟩
      rw [hrc] at hd'
      cases hd'
  · intro _ m hm
    rw [hnew] at hm
    cases hm

/-! ## Claim theorems -/

/-- C1: on Linux, when the primary machine-id file is read successfully
with non-empty content whose trimmed form is not a syntactically valid
UUID, resolution fails with the invalid-identifier error and the secondary
dbus machine-id file is never read. -/
theorem C1_unparsable_primary_is_terminal (fs : LinuxFs) (d : List Char)
    (h1 : fs.read_to_string etcMachineId = .ok d) (h2 : d ≠ [])
    (h3 : Uuid.parse_str (trim_end d) = .error .invalidFormat) :
    MachineId.new fs = .error (.InvalidUuid .invalidFormat) ∧
      dbusMachineId ∉ (MachineId.newT fs).2 :=
  new_unparsable_primary h1 h2 h3

/-- C1 witness: a run whose primary file holds `not-a-uuid\n` and whose
fallback file holds a valid machine id fails with the invalid-identifier
error without reading the fallback file. -/
theorem C1_witness :
    MachineId.new exFsBadPrimary = .error (.InvalidUuid .invalidFormat) ∧
      dbusMachineId ∉ (MachineId.newT exFsBadPrimary).2 :=
  C1_unparsable_primary_is_terminal exFsBadPrimary ("not-a-uuid\n".toList)
    (by decide) (by decide) (by decide)

/-- C2: on Linux, when the primary read fails or yields empty content,
the fallback dbus file is read, and if its trimmed content parses as a
UUID the resolution returns the fallback value. -/
theorem C2_fallback_on_empty_or_failed_primary (fs : LinuxFs) (d : List Char)
    (u : Uuid)
    (h1 : (∃ e, fs.read_to_string etcMachineId = .error e) ∨
      fs.read_to_string etcMachineId = .ok [])
    (h2 : fs.read_to_string dbusMachineId = .ok d)
    (h3 : Uuid.parse_str (trim_end d) = .ok u) :
    MachineId.new fs = .ok ⟨u⟩ ∧ dbusMachineId ∈ (MachineId.newT fs).2 := by
  have hc := readChainT_primary_failed h1
  rw [h2] at hc
  have hn := newT_of_chain_ok hc
  rw [h3] at hn
  exact ⟨by rw [MachineId.new, hn], by rw [hn]; simp⟩

/-- C2 witness: an empty primary file with fallback content
`abcdef12345678901234567890123456` resolves through the fallback to the
value whose canonical form is `ABCDEF12-3456-7890-1234-567890123456`. -/
theorem C2_witness :
    (MachineId.new exFsEmptyPrimary = .ok ⟨exU⟩ ∧
      dbusMachineId ∈ (MachineId.newT exFsEmptyPrimary).2) ∧
      MachineId.display ⟨exU⟩ = "ABCDEF12-3456-7890-1234-567890123456".toList :=
  ⟨C2_fallback_on_empty_or_failed_primary exFsEmptyPrimary
      ("abcdef12345678901234567890123456".toList) exU
      (Or.inr (by decide)) (by decide) (by decide),
    by decide⟩

/-- C3 counterexample: the code's normalizer is `trim_end`, which removes
every trailing whitespace character, not exactly one trailing line
terminator: on the raw string `4c4c4544-0046-3410-8051-b3c04f325233\n\n`
the code's parse succeeds, while stripping a single trailing newline
leaves a trailing newline and the parse the claim mandates fails. -/
theorem C3_counterexample :
    Uuid.parse_str
        (trim_end ("4c4c4544-0046-3410-8051-b3c04f325233\n\n".toList)) ≠
      Uuid.parse_str (trimSingleTrailingNewline
        ("4c4c4544-0046-3410-8051-b3c04f325233\n\n".toList)) ∧
      Uuid.parse_str
        (trim_end ("4c4c4544-0046-3410-8051-b3c04f325233\n\n".toList)) =
        .ok exU2 ∧
      Uuid.parse_str (trimSingleTrailingNewline
        ("4c4c4544-0046-3410-8051-b3c04f325233\n\n".toList)) =
        .error .invalidFormat := by
  refine ⟨?_, ?_, ?_⟩ <;> decide

/-- C3 (amended): before parsing, the normalizer removes the maximal
trailing run of whitespace characters — any number of trailing line
terminators or other whitespace, not exactly one line terminator — and
nothing else: the trimmed string is a prefix of the raw string, the
removed suffix is all whitespace, the trimmed string never ends in
whitespace, and internal whitespace survives trimming and makes the parse
fail (a string that parses contains no whitespace at all). -/
theorem C3_trim_maximal_trailing_ws (cs : List Char) :
    (∃ ws, cs = trim_end cs ++ ws ∧ ∀ c ∈ ws, isRustWhitespace c = true) ∧
      (∀ c, (trim_end cs).getLast? = some c → isRustWhitespace c = false) ∧
      (∀ u, Uuid.parse_str (trim_end cs) = .ok u →
        ∀ c ∈ trim_end cs, isRustWhitespace c = false) :=
  ⟨⟨(cs.reverse.takeWhile isRustWhitespace).reverse,
      (trim_end_append_ws cs).symm, trim_end_dropped_ws cs⟩,
    fun _ hc => trim_end_getLast_not_ws hc,
    fun _ hu => parse_str_ok_no_ws hu⟩

/-- C3 witness: `abc \n\t` decomposes into its trimmed prefix plus an
all-whitespace suffix; the last kept character of a trimmed string is not
whitespace; and a character of a successfully parsed string is not
whitespace. -/
theorem C3_witness :
    (∃ ws, (" ab \n\t".toList : List Char) =
        trim_end (" ab \n\t".toList) ++ ws ∧
        ∀ c ∈ ws, isRustWhitespace c = true) ∧
      isRustWhitespace 'b' = false ∧
      isRustWhitespace 'A' = false :=
  ⟨(C3_trim_maximal_trailing_ws (" ab \n\t".toList)).1,
    (C3_trim_maximal_trailing_ws (" ab \n\t".toList)).2.1 'b' (by decide),
    (C3_trim_maximal_trailing_ws
        ("ABCDEF12-3456-7890-1234-567890123456".toList)).2.2 exU
      (by decide) 'A' (by decide)⟩

/-- C4: on Linux, resolution fails with an I/O (access) error exactly when
every source in the chain failed to produce a raw string (primary read
failed or empty, and fallback read failed); it fails with the
invalid-identifier error exactly when a raw string was obtained but its
trimmed form failed UUID parsing; and when the whole chain fails the
result is always an error, never a silently-defaulted value. -/
theorem C4_error_kinds (fs : LinuxFs) :
    ((∃ e, MachineId.new fs = .error (.IoError e)) ↔ chainFailed fs) ∧
      ((∃ e, MachineId.new fs = .error (.InvalidUuid e)) ↔
        (∃ d, readChain fs = .ok d ∧
          Uuid.parse_str (trim_end d) = .error .invalidFormat)) ∧
      (chainFailed fs → ∀ m, MachineId.new fs ≠ .ok m) := by
  rcases hetc : fs.read_to_string etcMachineId with e | d
  · have hc := readChainT_primary_failed (Or.inl ⟨e, hetc⟩)
    rcases hdb : fs.read_to_string dbusMachineId with e2 | d2
    · rw [hdb] at hc
      exact c4_chain_error hc ⟨Or.inl ⟨e, hetc⟩, ⟨e2, hdb⟩⟩
    · rw [hdb] at hc
      refine c4_chain_ok hc ?_
      rintro ⟨_, ⟨e2, hdb2⟩⟩
      rw [hdb] at hdb2
      cases hdb2
  · by_cases hd : d = []
    · subst hd
      have hc := readChainT_primary_failed (Or.inr hetc)
      rcases hdb : fs.read_to_string dbusMachineId with e2 | d2
      · rw [hdb] at hc
        exact c4_chain_error hc ⟨Or.inr hetc, ⟨e2, hdb⟩⟩
      · rw [hdb] at hc
        refine c4_chain_ok hc ?_
        rintro ⟨_, ⟨e2, hdb2⟩⟩
        rw [hdb] at hdb2
        cases hdb2
    · refine c4_chain_ok (readChainT_primary_ok hetc hd) ?_
      rintro ⟨hfail, _⟩
      rcases hfail with ⟨e2, he2⟩ | he2
      · rw [hetc] at he2
        cases he2
      · rw [hetc] at he2
        injection he2 with he2
        exact hd he2

/-- C4 witness: with both machine-id files absent, resolution yields an
I/O error and is not a success for any value; and on a bad primary file a
raw string was obtained, so the result is the invalid-identifier error. -/
theorem C4_witness :
    (∃ e, MachineId.new exFsAbsent = .error (.IoError e)) ∧
      MachineId.new exFsAbsent ≠ .ok ⟨exU⟩ ∧
      (∃ e, MachineId.new exFsBadPrimary = .error (.InvalidUuid e)) :=
  ⟨(C4_error_kinds exFsAbsent).1.mpr
      ⟨Or.inl ⟨.newError .notFound, rfl⟩, ⟨.newError .notFound, rfl⟩⟩,
    (C4_error_kinds exFsAbsent).2.2
      ⟨Or.inl ⟨.newError .notFound, rfl⟩, ⟨.newError .notFound, rfl⟩⟩ ⟨exU⟩,
    (C4_error_kinds exFsBadPrimary).2.1.mpr
      ⟨"not-a-uuid\n".toList, by decide, by decide⟩⟩

/-- C5: the textual display of every resolved MachineId is the 32
hexadecimal digits of its 128-bit value in uppercase, grouped 8-4-4-4-12
with hyphens and with no surrounding braces: the display splits into five
hex groups of lengths 8, 4, 4, 4 and 12 separated by single hyphens, the
groups concatenate to the uppercase digits of the value, and every
character of the display is an uppercase hex digit or a hyphen. -/
theorem C5_display_canonical (fs : LinuxFs) (m : MachineId)
    (h : MachineId.new fs = .ok m) :
    ∃ g1 g2 g3 g4 g5 : List Char,
      m.display =
        g1 ++ '-' :: (g2 ++ '-' :: (g3 ++ '-' :: (g4 ++ '-' :: g5))) ∧
      g1.length = 8 ∧ g2.length = 4 ∧ g3.length = 4 ∧ g4.length = 4 ∧
      g5.length = 12 ∧
      g1 ++ (g2 ++ (g3 ++ (g4 ++ g5))) = m.uuid.map nibbleToUpperHexChar ∧
      (∀ c ∈ m.display, isUpperHexDigit c = true ∨ c = '-') := by
  obtain ⟨hlen, hlt⟩ := new_ok_shape h
  refine ⟨(m.uuid.take 8).map nibbleToUpperHexChar,
    ((m.uuid.drop 8).take 4).map nibbleToUpperHexChar,
    ((m.uuid.drop 12).take 4).map nibbleToUpperHexChar,
    ((m.uuid.drop 16).take 4).map nibbleToUpperHexChar,
    (m.uuid.drop 20).map nibbleToUpperHexChar,
    upperHex_decomp m.uuid, ?_, ?_, ?_, ?_, ?_, ?_,
    upperHex_chars hlt⟩
  · simp only [List.length_map, List.length_take, hlen]
    omega
  · simp only [List.length_map, List.length_take, List.length_drop, hlen]
    omega
  · simp only [List.length_map, List.length_take, List.length_drop, hlen]
    omega
  · simp only [List.length_map, List.length_take, List.length_drop, hlen]
    omega
  · simp only [List.length_map, List.length_drop, hlen]
  · simp only [← List.map_append]
    rw [uuid_regroup]

/-- C5 witness: the raw string `4c4c4544-0046-3410-8051-b3c04f325233`
followed by a newline (lowercase hex accepted) resolves to a value whose
display is exactly `4C4C4544-0046-3410-8051-B3C04F325233`, and that
display has the canonical grouped shape. -/
theorem C5_witness :
    MachineId.new exFsHyphenated = .ok ⟨exU2⟩ ∧
      MachineId.display ⟨exU2⟩ =
        "4C4C4544-0046-3410-8051-B3C04F325233".toList ∧
      (∃ g1 g2 g3 g4 g5 : List Char,
        MachineId.display ⟨exU2⟩ =
          g1 ++ '-' :: (g2 ++ '-' :: (g3 ++ '-' :: (g4 ++ '-' :: g5))) ∧
        g1.length = 8 ∧ g2.length = 4 ∧ g3.length = 4 ∧ g4.length = 4 ∧
        g5.length = 12 ∧
        g1 ++ (g2 ++ (g3 ++ (g4 ++ g5))) =
          (⟨exU2⟩ : MachineId).uuid.map nibbleToUpperHexChar ∧
        (∀ c ∈ MachineId.display ⟨exU2⟩, isUpperHexDigit c = true ∨ c = '-')) :=
  ⟨by decide, by decide,
    C5_display_canonical exFsHyphenated ⟨exU2⟩ (by decide)⟩

/-- C6: serializing any parseable MachineId value to its structured
textual encoding and deserializing that encoding yields an equal value
(serde round-trip), whether the value originated from a hyphenated or a
bare-hex raw string. -/
theorem C6_serde_roundtrip (cs : List Char) (u : Uuid)
    (h : Uuid.parse_str cs = .ok u) :
    MachineId.serde_deserialize (MachineId.serde_serialize ⟨u⟩) = .ok ⟨u⟩ := by
  obtain ⟨hlen, hlt⟩ := parse_str_ok_shape h
  have hs : MachineId.serde_serialize ⟨u⟩ = Uuid.upperHex u := rfl
  rw [hs, MachineId.serde_deserialize, parse_str_upperHex hlen hlt]

/-- C6 witness: the round-trip at a value of bare-hex origin and at a
value of hyphenated origin. -/
theorem C6_witness :
    Uuid.parse_str ("abcdef12345678901234567890123456".toList) = .ok exU ∧
      Uuid.parse_str ("4c4c4544-0046-3410-8051-b3c04f325233".toList) =
        .ok exU2 ∧
      MachineId.serde_deserialize (MachineId.serde_serialize ⟨exU⟩) =
        .ok ⟨exU⟩ ∧
      MachineId.serde_deserialize (MachineId.serde_serialize ⟨exU2⟩) =
        .ok ⟨exU2⟩ :=
  ⟨by decide, by decide,
    C6_serde_roundtrip ("abcdef12345678901234567890123456".toList) exU
      (by decide),
    C6_serde_roundtrip ("4c4c4544-0046-3410-8051-b3c04f325233".toList) exU2
      (by decide)⟩

/-- C7: the structured (serde) encoding of a MachineId is exactly its
canonical textual form (the same string as its display), and decoding
performs the identical validation as the UUID normalizer: it is the
normalizer's parse wrapped into a MachineId, succeeding exactly when the
parse succeeds and failing on exactly the strings the parse rejects. -/
theorem C7_serde_is_canonical_form (m : MachineId) (cs : List Char) :
    MachineId.serde_serialize m = MachineId.display m ∧
      MachineId.serde_deserialize cs =
        (match Uuid.parse_str cs with
          | .ok u => .ok ⟨u⟩
          | .error e => .error (.InvalidUuid e)) ∧
      ((∃ m', MachineId.serde_deserialize cs = .ok m') ↔
        (∃ u, Uuid.parse_str cs = .ok u)) := by
  refine ⟨rfl, rfl, ?_, ?_⟩
  · rintro ⟨m', hm'⟩
    rw [MachineId.serde_deserialize] at hm'
    split at hm'
    · rename_i u hp
      exact ⟨u, hp⟩
    · exact absurd hm' (by simp)
  · rintro ⟨u, hu⟩
    exact ⟨⟨u⟩, by rw [MachineId.serde_deserialize, hu]⟩

/-- C7 witness: the serde encoding of a concrete value equals its display,
and decoding succeeds on a concrete valid bare-hex string. -/
theorem C7_witness :
    MachineId.serde_serialize ⟨exU⟩ = MachineId.display ⟨exU⟩ ∧
      (∃ m', MachineId.serde_deserialize
        ("abcdef12345678901234567890123456".toList) = .ok m') :=
  ⟨(C7_serde_is_canonical_form ⟨exU⟩ []).1,
    (C7_serde_is_canonical_form ⟨exU⟩
        ("abcdef12345678901234567890123456".toList)).2.2.mpr
      ⟨exU, by decide⟩⟩

/-- C8: in the sysctl adapter for non-Linux Unix, a non-zero return of
either sysctl call makes the adapter fail with
`io::Error::from_raw_os_error` carrying that return value verbatim, and
on success `host_uuid` returns the buffer content truncated at the first
NUL byte, each byte converted to a character. -/
theorem C8_sysctl_error_passthrough (os : SysctlOs) :
    (∀ r, os.call1 = .error r →
      unix.host_uuid os = .error (.fromRawOsError r)) ∧
      (∀ n s, os.call1 = .ok n → os.call2 n = .error s →
        unix.host_uuid os = .error (.fromRawOsError s)) ∧
      (∀ n b, os.call1 = .ok n → os.call2 n = .ok b →
        unix.host_uuid os =
          .ok ((b.takeWhile (fun ch => ch ≠ 0)).map
            (fun ch => Char.ofNat ch))) := by
  refine ⟨fun r h => ?_, fun n s h1 h2 => ?_, fun n b h1 h2 => ?_⟩
  · rw [unix.host_uuid, unix.sysctl, h]
  · rw [unix.host_uuid, unix.sysctl, h1]
    dsimp only
    rw [h2]
  · rw [unix.host_uuid, unix.sysctl, h1]
    dsimp only
    rw [h2]

/-- C8 witness: a failing size query surfaces `-1` verbatim, a failing
data query surfaces `5` verbatim, and a successful query returns the
buffer `[65, 66, 0, 67]` truncated at the NUL as `AB`. -/
theorem C8_witness :
    unix.host_uuid exOsCall1Fails = .error (.fromRawOsError (-1)) ∧
      unix.host_uuid exOsCall2Fails = .error (.fromRawOsError 5) ∧
      unix.host_uuid exOsOk = .ok ("AB".toList) :=
  ⟨(C8_sysctl_error_passthrough exOsCall1Fails).1 (-1) rfl,
    (C8_sysctl_error_passthrough exOsCall2Fails).2.1 37 5 rfl rfl,
    by exact (C8_sysctl_error_passthrough exOsOk).2.2 4 [65, 66, 0, 67] rfl rfl⟩

/-- C9: resolution is deterministic: two resolutions against the same
file-system state both succeed with byte-identical values or the run is
not a success; the resolved UUID is a function of the state alone. -/
theorem C9_deterministic (fs : LinuxFs) (m1 m2 : MachineId)
    (h1 : MachineId.new fs = .ok m1) (h2 : MachineId.new fs = .ok m2) :
    m1.uuid = m2.uuid := by
  rw [h1] at h2
  injection h2 with h2
  rw [h2]

/-- C9 witness: two resolutions on the concrete hyphenated-file state
yield the same value. -/
theorem C9_witness :
    MachineId.new exFsHyphenated = .ok ⟨exU2⟩ ∧
      (⟨exU2⟩ : MachineId).uuid = (⟨exU2⟩ : MachineId).uuid :=
  ⟨by decide,
    C9_deterministic exFsHyphenated ⟨exU2⟩ ⟨exU2⟩ (by decide) (by decide)⟩

/-- C10: on Linux, when the primary file is read successfully and its
content is only line terminators (e.g. a single newline), the content is
non-empty, so the fallback file is not consulted; trimming yields the
empty string and resolution fails with the invalid-identifier error, not
an access error. -/
theorem C10_newline_only_primary (fs : LinuxFs) (d : List Char)
    (h1 : fs.read_to_string etcMachineId = .ok d) (h2 : d ≠ [])
    (h3 : ∀ c ∈ d, c = '\n' ∨ c = '\r') :
    MachineId.new fs = .error (.InvalidUuid .invalidFormat) ∧
      dbusMachineId ∉ (MachineId.newT fs).2 := by
  have hws : ∀ c ∈ d, isRustWhitespace c = true := by
    intro c hc
    rcases h3 c hc with rfl | rfl <;> decide
  have hp : Uuid.parse_str (trim_end d) = .error .invalidFormat := by
    rw [trim_end_all_ws hws]
    exact parse_str_nil
  exact new_unparsable_primary h1 h2 hp

/-- C10 witness: a primary file holding a single newline, with a valid
fallback file present, fails with the invalid-identifier error and never
reads the fallback file. -/
theorem C10_witness :
    MachineId.new exFsNewlinePrimary = .error (.InvalidUuid .invalidFormat) ∧
      dbusMachineId ∉ (MachineId.newT exFsNewlinePrimary).2 :=
  C10_newline_only_primary exFsNewlinePrimary ['\n'] (by decide) (by decide)
    (by
      intro c hc
      rw [List.mem_singleton] at hc
      exact Or.inl hc)
